import Mathlib

/-!
Verification of the tweet scheduling / mention auto-reply engine of the
PizaaApp repository.  The Python modules `token_manager.py`,
`twitter_utils.py` and `tweet.py` are shallowly embedded below: the
persisted JSON token store becomes an `Option BudgetRecord`, wall-clock
instants become integer second counts, and the side-effecting loops
(auto-reply cycles, bulk posting, `post_tweet`) become pure functions
that return an explicit trace of the observable events they perform.
-/

/-! ## token_manager.py -/

/-- Persisted token-budget record: the JSON object
`{ "month": "YYYY-MM", "tokens_left": n }` written by `_save`.
An absent or unreadable file (`_load` returning `{}`) is `none`. -/
structure BudgetRecord where
  month : String
  tokensLeft : Int
deriving Repr, DecidableEq

/-- Rollover step shared by `get_tokens` and `consume_tokens`: if the stored
month differs from the current month (or the store is absent/unreadable),
replace the in-memory data with a fresh full record for the current month. -/
def rolled (store : Option BudgetRecord) (month : String) (monthly_limit : Int) : BudgetRecord :=
  match store with
  | none => ⟨month, monthly_limit⟩
  | some r => if r.month ≠ month then ⟨month, monthly_limit⟩ else r

/-- Embedding of `token_manager.get_tokens`.  `month` is the current calendar
month (`_current_month_str()` at call time).  Returns the pair
`(tokens_left, monthly_limit)` together with the store as left on disk:
on a month mismatch (or absent store) the reset is persisted before
returning; otherwise the store is not written. -/
def get_tokens (store : Option BudgetRecord) (month : String) (monthly_limit : Int) :
    (Int × Int) × Option BudgetRecord :=
  match store with
  | none => ((monthly_limit, monthly_limit), some ⟨month, monthly_limit⟩)
  | some r =>
    if r.month ≠ month then ((monthly_limit, monthly_limit), some ⟨month, monthly_limit⟩)
    else ((r.tokensLeft, monthly_limit), some r)

/-- Embedding of `token_manager.consume_tokens`: rollover check in memory,
then decrement and persist only when `tokens_left >= n`; on insufficient
tokens it returns `false` and performs no write at all (even a pending
rollover is not persisted). -/
def consume_tokens (n : Int) (store : Option BudgetRecord) (month : String) (monthly_limit : Int) :
    Bool × Option BudgetRecord :=
  let data := rolled store month monthly_limit
  if data.tokensLeft < n then (false, store)
  else (true, some ⟨data.month, data.tokensLeft - n⟩)

/-- Embedding of `token_manager.refill_monthly`: unconditionally persists a
full record for the current month. -/
def refill_monthly (month : String) (monthly_limit : Int) : Option BudgetRecord :=
  some ⟨month, monthly_limit⟩

/-- Iterated `consume_tokens 1` within a fixed current month, used for the
depletion scenario of claim C4. -/
def consume_iter (month : String) (monthly_limit : Int) :
    Nat → Option BudgetRecord → Option BudgetRecord
  | 0, store => store
  | k + 1, store => consume_iter month monthly_limit k (consume_tokens 1 store month monthly_limit).2

/-- Operation alphabet for the token-budget store.  Each call carries the
current calendar month observed at call time (`_current_month_str()`); the
month may change between operations. -/
inductive BudgetOp
  | getOp (month : String)
  | consumeOp (n : Nat) (month : String)
  | refillOp (month : String)
deriving Repr, DecidableEq

/-- Store left on disk by one token-manager operation. -/
def budget_step (monthly_limit : Int) (store : Option BudgetRecord) : BudgetOp → Option BudgetRecord
  | .getOp month => (get_tokens store month monthly_limit).2
  | .consumeOp n month => (consume_tokens (n : Int) store month monthly_limit).2
  | .refillOp month => refill_monthly month monthly_limit

/-- Store left on disk after a sequence of token-manager operations. -/
def budget_run (monthly_limit : Int) (store : Option BudgetRecord) (ops : List BudgetOp) :
    Option BudgetRecord :=
  ops.foldl (budget_step monthly_limit) store

/-- Budget invariant of the spec data model: a persisted record, when
present, keeps `tokens_left` within `[0, monthlyLimit]`. -/
def BudgetInv (monthly_limit : Int) : Option BudgetRecord → Prop
  | none => True
  | some r => 0 ≤ r.tokensLeft ∧ r.tokensLeft ≤ monthly_limit

/-! ## twitter_utils.py : delay calculator -/

/-- Whitespace characters stripped by Python `str.strip()` (ASCII range, as
used by `int(...)` on its argument). -/
def pyIsSpace (c : Char) : Bool :=
  c = ' ' || c = '\t' || c = '\n' || c = '\r' || c = '\x0b' || c = '\x0c'

/-- Both-ends whitespace strip, as Python `int(str)` applies to its input. -/
def pyStripChars (cs : List Char) : List Char :=
  ((cs.dropWhile pyIsSpace).reverse.dropWhile pyIsSpace).reverse

/-- Digit run with optional single underscores between digits, continuing an
already-started number — the tail of Python integer-literal parsing. -/
def parseDigitsAux : Nat → List Char → Option Nat
  | acc, [] => some acc
  | acc, c :: rest =>
    if c.isDigit then parseDigitsAux (acc * 10 + (c.toNat - 48)) rest
    else if c = '_' then
      match rest with
      | [] => none
      | d :: rest2 =>
        if d.isDigit then parseDigitsAux (acc * 10 + (d.toNat - 48)) rest2 else none
    else none

/-- Nonempty digit run with optional single underscores between digits. -/
def parseDigitsU : List Char → Option Nat
  | [] => none
  | c :: rest => if c.isDigit then parseDigitsAux (c.toNat - 48) rest else none

/-- Embedding of Python `int(s)` for a decimal string: strips whitespace,
accepts one optional sign, then digits with underscores between digits. -/
def pyInt (cs0 : List Char) : Option Int :=
  match pyStripChars cs0 with
  | '+' :: rest => (parseDigitsU rest).map (fun n => (n : Int))
  | '-' :: rest => (parseDigitsU rest).map (fun n => -(n : Int))
  | cs => (parseDigitsU cs).map (fun n => (n : Int))

/-- Embedding of Python `s.split(sep, 1)`: `none` when `sep` does not occur
(so tuple unpacking of the one-element result raises), otherwise the parts
before and after the first occurrence. -/
def splitOnce (cs : List Char) (sep : Char) : Option (List Char × List Char) :=
  match cs with
  | [] => none
  | c :: rest =>
    if c = sep then some ([], rest)
    else (splitOnce rest sep).map (fun p => (c :: p.1, p.2))

/-- Embedding of `hour, minute = map(int, time_hhmm.split(":", 1))`:
`none` exactly when that line raises (no colon, or either part is not a
valid Python integer literal). -/
def parseHHMM (s : String) : Option (Int × Int) :=
  match splitOnce s.data ':' with
  | none => none
  | some (a, b) =>
    match pyInt a, pyInt b with
    | some h, some m => some (h, m)
    | _, _ => none

/-- Error raised by the delay calculator (`ValueError` in the source;
`calendar.IllegalMonthError` is a `ValueError` subclass). -/
inductive DelayError
  | invalidInput (msg : String)
deriving Repr, DecidableEq

/-- Truthiness of the `time_hhmm` argument in Python (`not time_hhmm` is
true for both `None` and the empty string). -/
def hhmmTruthy (time_hhmm : Option String) : Prop :=
  time_hhmm ≠ none ∧ time_hhmm ≠ some ""

instance (t : Option String) : Decidable (hhmmTruthy t) := by
  unfold hhmmTruthy
  infer_instance

/-- Embedding of `twitter_utils.compute_delay_seconds`, at one-second
granularity.  `nowSod` is the current time as seconds since local midnight
(so `nowSod < 86400`).  Returns the delay in seconds; the human label half
of the Python return value is dropped (no claim mentions it). -/
def compute_delay_seconds (delay_minutes : Option Int) (time_hhmm : Option String)
    (nowSod : Nat) : Except DelayError Int :=
  if (delay_minutes = none ∧ ¬ hhmmTruthy time_hhmm) ∨
     (delay_minutes ≠ none ∧ hhmmTruthy time_hhmm) then
    .error (.invalidInput "Provide either delay_minutes OR time_hhmm (HH:MM), not both.")
  else
    match delay_minutes with
    | some dm =>
      if dm < 0 then .error (.invalidInput "delay_minutes must be >= 0")
      else .ok (dm * 60)
    | none =>
      match time_hhmm with
      | none => .error (.invalidInput "unreachable: guarded by the argument check above")
      | some s =>
        match parseHHMM s with
        | none => .error (.invalidInput "time_hhmm must be in HH:MM 24h format")
        | some (h, m) =>
          if ¬ (0 ≤ h ∧ h ≤ 23 ∧ 0 ≤ m ∧ m ≤ 59) then
            .error (.invalidInput "time_hhmm must be a valid 24h time")
          else
            if h * 3600 + m * 60 ≤ (nowSod : Int) then
              .ok (h * 3600 + m * 60 + 86400 - nowSod)
            else
              .ok (h * 3600 + m * 60 - nowSod)

/-- Gregorian leap-year rule of `calendar.isleap`. -/
def pyIsLeap (y : Int) : Bool :=
  y % 4 = 0 && (y % 100 ≠ 0 || y % 400 = 0)

/-- Length of a (valid) month, as `calendar.mdays[month]` adjusted for
February in leap years. -/
def monthDays (y m : Int) : Int :=
  if m = 2 then (if pyIsLeap y then 29 else 28)
  else if m = 4 ∨ m = 6 ∨ m = 9 ∨ m = 11 then 30
  else 31

/-- Embedding of `calendar.monthrange(year, month)[1]`: `none` models the
`IllegalMonthError` (a `ValueError`) raised for a month outside 1..12. -/
def monthrange_days (y m : Int) : Option Int :=
  if 1 ≤ m ∧ m ≤ 12 then some (monthDays y m) else none

/-- Leap days in years 1..y-1 (proleptic Gregorian, as Python `datetime`). -/
def leapsBefore (y : Nat) : Nat :=
  (y - 1) / 4 - (y - 1) / 100 + (y - 1) / 400

/-- Days contributed by the months of year `y` before month `m`. -/
def daysBeforeMonth (y m : Nat) : Nat :=
  (List.range (m - 1)).foldl (fun acc i => acc + (monthDays (y : Int) ((i + 1 : Nat) : Int)).toNat) 0

/-- Day count of `y-m-d` from the epoch 0001-01-01 (Python
`datetime.toordinal` minus one). -/
def toOrdinal (y m d : Nat) : Nat :=
  365 * (y - 1) + leapsBefore y + daysBeforeMonth y m + (d - 1)

/-- Second count of the instant `y-m-d h:mi:00` from the epoch. -/
def toEpochSecs (y m d h mi : Nat) : Nat :=
  toOrdinal y m d * 86400 + h * 3600 + mi * 60

/-- Embedding of `twitter_utils.compute_delay_to_month_day_time`, at
one-second granularity.  `now` is the current instant as seconds from the
same epoch as `toEpochSecs`.  The year-range test mirrors the
`datetime(year, month, day, hour, minute)` constructor, which raises
`ValueError` outside 1..9999; the human label half of the Python return
value is dropped (no claim mentions it). -/
def compute_delay_to_month_day_time (year month day : Int) (time_hhmm : String)
    (now : Int) : Except DelayError Int :=
  match monthrange_days year month with
  | none => .error (.invalidInput "bad month number; must be 1-12")
  | some ndays =>
    if day < 1 ∨ day > ndays then .error (.invalidInput "Invalid day for this month")
    else
      match parseHHMM time_hhmm with
      | none => .error (.invalidInput "time_hhmm must be in HH:MM 24h format")
      | some (h, mi) =>
        if ¬ (0 ≤ h ∧ h ≤ 23 ∧ 0 ≤ mi ∧ mi ≤ 59) then
          .error (.invalidInput "time_hhmm must be a valid 24h time")
        else if year < 1 ∨ year > 9999 then
          .error (.invalidInput "year is out of range for datetime")
        else
          let run : Int := toEpochSecs year.toNat month.toNat day.toNat h.toNat mi.toNat
          if run ≤ now then
            .error (.invalidInput "Selected date/time must be in the future within this month")
          else .ok (run - now)

/-! ## tweet.py : mention auto-reply engine -/

/-- Mention record as used by the loops: `m.id`, `m.user.screen_name`
(`none` when the attribute is absent) and the tweet text. -/
structure Mention where
  id : Int
  screenName : Option String
  text : String
deriving Repr, DecidableEq

/-- Failure kinds of the posting transport, matching the handler ladder in
`tweet.py` (`tweepy.Unauthorized`, `tweepy.Forbidden`,
`tweepy.TooManyRequests`, other `tweepy.TweepyException`, anything else). -/
inductive TransportError
  | unauthorized
  | forbidden
  | rateLimited
  | apiError
  | unexpected
deriving Repr, DecidableEq

/-- Observable events of one auto-reply cycle: a reply posted for a mention
id, the cursor persisted to an id, the fixed-mode outer handler logging a
specific error kind, the AI-mode per-mention generic failure log, and the
two AI-mode engine stops. -/
inductive Event
  | replied (id : Int)
  | persisted (id : Int)
  | loggedErrorKind (e : TransportError)
  | aiReplyFailed (id : Int)
  | stoppedBudget
  | stoppedConsumeFail
deriving Repr, DecidableEq

/-- Per-mention body of `auto_reply_to_mentions` over an already-reversed
mention list.  `outcome m = none` means `api.update_status` succeeds for
`m`; `some e` means it raises with kind `e`.  The `try` in the source wraps
the whole `for` loop, so a raised error is logged by the outer handlers and
ends the cycle. -/
def fixedReplyLoop (outcome : Mention → Option TransportError) :
    List Mention → Option Int → List Event × Option Int
  | [], last => ([], last)
  | m :: rest, last =>
    match m.screenName with
    | none => fixedReplyLoop outcome rest last
    | some _ =>
      match outcome m with
      | some e => ([Event.loggedErrorKind e], last)
      | none =>
        let r := fixedReplyLoop outcome rest (some m.id)
        (Event.replied m.id :: Event.persisted m.id :: r.1, r.2)

/-- One cycle of `auto_reply_to_mentions`: mentions arrive newest-first and
are processed in reversed order.  Returns the event trace and the cursor as
persisted at cycle end. -/
def auto_reply_cycle_fixed (outcome : Mention → Option TransportError)
    (mentions : List Mention) (last : Option Int) : List Event × Option Int :=
  fixedReplyLoop outcome mentions.reverse last

/-- Per-mention body of `auto_reply_ai` over an already-reversed mention
list, threading the token store.  `month` is the current calendar month
(constant across the cycle in this single-process, single-writer model).
The budget check uses `get_tokens()` and a failed check returns from the
engine; the token is consumed by `consume_tokens(1)` before the post is
attempted; a post failure is caught per-mention and the loop continues. -/
def aiReplyLoop (outcome : Mention → Option TransportError) (month : String) (limit : Int) :
    List Mention → Option Int → Option BudgetRecord →
      List Event × Option Int × Option BudgetRecord
  | [], last, store => ([], last, store)
  | m :: rest, last, store =>
    match m.screenName with
    | none => aiReplyLoop outcome month limit rest last store
    | some _ =>
      let g := get_tokens store month limit
      if g.1.1 ≤ 0 then ([Event.stoppedBudget], last, g.2)
      else
        let c := consume_tokens 1 g.2 month limit
        if c.1 = false then ([Event.stoppedConsumeFail], last, c.2)
        else
          match outcome m with
          | some _ =>
            let r := aiReplyLoop outcome month limit rest last c.2
            (Event.aiReplyFailed m.id :: r.1, r.2)
          | none =>
            let r := aiReplyLoop outcome month limit rest (some m.id) c.2
            (Event.replied m.id :: Event.persisted m.id :: r.1, r.2)

/-- One cycle of `auto_reply_ai`: mentions arrive newest-first and are
processed in reversed order. -/
def auto_reply_cycle_ai (outcome : Mention → Option TransportError) (month : String)
    (limit : Int) (mentions : List Mention) (last : Option Int)
    (store : Option BudgetRecord) : List Event × Option Int × Option BudgetRecord :=
  aiReplyLoop outcome month limit mentions.reverse last store

/-- Trace of an all-successful run over a mention list: reply then persist,
mention by mention. -/
def pairEvents : List Mention → List Event
  | [] => []
  | m :: rest => Event.replied m.id :: Event.persisted m.id :: pairEvents rest

/-- Trace of an AI run over a mention list with per-mention outcomes:
reply-and-persist on success, a logged failure on a failed post. -/
def aiTrace (outcome : Mention → Option TransportError) : List Mention → List Event
  | [] => []
  | m :: rest =>
    match outcome m with
    | none => Event.replied m.id :: Event.persisted m.id :: aiTrace outcome rest
    | some _ => Event.aiReplyFailed m.id :: aiTrace outcome rest

/-- Cursor value after processing a list in order: id of the last mention
whose post succeeded, or the starting value if none did. -/
def lastSuccessId (outcome : Mention → Option TransportError) :
    Option Int → List Mention → Option Int
  | last, [] => last
  | last, m :: rest =>
    lastSuccessId outcome (if outcome m = none then some m.id else last) rest

/-- Mention ids that were actually replied to, in trace order. -/
def repliedIds : List Event → List Int
  | [] => []
  | Event.replied i :: rest => i :: repliedIds rest
  | _ :: rest => repliedIds rest

/-- Cursor after an all-successful run over a processing-order list: id of
its last element, or the starting value for an empty list. -/
def cursorAfter (l : List Mention) (last : Option Int) : Option Int :=
  match l.getLast? with
  | none => last
  | some m => some m.id

/-- Id of the newest mention of a newest-first fetch (its head), or the
prior cursor when the fetch is empty. -/
def fetchHeadId (mentions : List Mention) (last : Option Int) : Option Int :=
  match mentions with
  | [] => last
  | m :: _ => some m.id

/-! ## tweet.py : bulk posting and post_tweet -/

/-- Observable events of `bulk_post_from_file`: a successful post, a logged
per-item failure, a sleep between posts, and the "No tweets found in file."
notice. -/
inductive BulkEvent
  | sent (idx : Nat) (msg : String)
  | failedPost (idx : Nat) (msg : String)
  | slept (seconds : Nat)
  | noTweets
deriving Repr, DecidableEq

/-- Seconds slept between bulk posts: `max(0, int(delay_minutes)) * 60`. -/
def bulk_delay_seconds (delay_minutes : Int) : Nat :=
  (max 0 delay_minutes).toNat * 60

/-- Body of the `for idx, t in enumerate(tweets, start=1)` loop of
`bulk_post_from_file`: attempt the post (logging success or the caught
per-item failure), then sleep only when this is not the last item and the
delay is nonzero (`if idx < len(tweets) and delay_seconds`). -/
def bulkLoop (outcome : Nat → String → Bool) (delay_seconds total : Nat) :
    Nat → List String → List BulkEvent
  | _, [] => []
  | idx, t :: rest =>
    (if outcome idx t then BulkEvent.sent idx t else BulkEvent.failedPost idx t) ::
      (if idx < total ∧ delay_seconds ≠ 0 then
        BulkEvent.slept delay_seconds :: bulkLoop outcome delay_seconds total (idx + 1) rest
      else bulkLoop outcome delay_seconds total (idx + 1) rest)

/-- Embedding of `tweet.bulk_post_from_file` after the file has been read
into `tweets` (`read_tweets_from_file` is a separate helper).  `outcome`
tells whether the post of the item at a 1-based index succeeds. -/
def bulk_post_from_file (outcome : Nat → String → Bool) (tweets : List String)
    (delay_minutes : Int) : List BulkEvent :=
  if tweets = [] then [BulkEvent.noTweets]
  else bulkLoop outcome (bulk_delay_seconds delay_minutes) tweets.length 1 tweets

/-- Indices and messages of the posts attempted in a trace, in order. -/
def attempts : List BulkEvent → List (Nat × String)
  | [] => []
  | BulkEvent.sent i t :: rest => (i, t) :: attempts rest
  | BulkEvent.failedPost i t :: rest => (i, t) :: attempts rest
  | _ :: rest => attempts rest

/-- Enumeration of messages with 1-based indices starting at `i`. -/
def idxFrom (i : Nat) : List String → List (Nat × String)
  | [] => []
  | t :: rest => (i, t) :: idxFrom (i + 1) rest

/-- Number of sleep events in a trace. -/
def sleepCount : List BulkEvent → Nat
  | [] => 0
  | BulkEvent.slept _ :: rest => sleepCount rest + 1
  | _ :: rest => sleepCount rest

/-- Steps of `post_tweet` after the emptiness guard: load the four
credentials, `verify_credentials`, then `update_status`. -/
inductive PostStep
  | loadCreds
  | verifyCreds
  | updateStatus (msg : String)
deriving Repr, DecidableEq

/-- Python `str.strip()` on a string (ASCII whitespace). -/
def pyStripStr (s : String) : String :=
  String.mk (pyStripChars s.data)

/-- Embedding of `tweet.post_tweet`: `if not message or not message.strip():
raise ValueError(...)` happens before any credential or network step; the
returned step list records, in order, what the function then attempts. -/
def post_tweet (message : String) : Except String (List PostStep) :=
  if message = "" ∨ pyStripStr message = "" then .error "Tweet message cannot be empty."
  else .ok [PostStep.loadCreds, PostStep.verifyCreds, PostStep.updateStatus message]

/-! ## Theorems -/

theorem rolled_month (store : Option BudgetRecord) (month : String) (limit : Int) :
    (rolled store month limit).month = month := by
  cases store with
  | none => rfl
  | some r =>
    by_cases h : r.month = month
    · simp [rolled, h]
    · simp [rolled, h]

theorem consume_iter_step (month : String) (limit : Int) (k : Nat) (t : Int)
    (h : (k : Int) ≤ t) :
    consume_iter month limit k (some ⟨month, t⟩) = some ⟨month, t - k⟩ := by
  induction k generalizing t with
  | zero => simp [consume_iter]
  | succ k ih =>
    have h1 : ¬ t < 1 := by omega
    have hstep : (consume_tokens 1 (some ⟨month, t⟩) month limit).2 = some ⟨month, t - 1⟩ := by
      simp [consume_tokens, rolled, h1]
    have hk : (k : Int) ≤ t - 1 := by omega
    have hcast : t - 1 - (k : Int) = t - ((k : Int) + 1) := by ring
    calc consume_iter month limit (k + 1) (some ⟨month, t⟩)
        = consume_iter month limit k (some ⟨month, t - 1⟩) := by
          simp only [consume_iter, hstep]
      _ = some ⟨month, t - 1 - k⟩ := ih (t - 1) hk
      _ = some ⟨month, t - (k + 1)⟩ := by rw [hcast]

/-- C4: `consume_tokens n` succeeds exactly when the post-rollover
`tokens_left` is at least `n`; on success it persists the decremented value
for the current month, on failure it leaves the persisted state untouched.
Consequently, from a full budget, `monthlyLimit` consumptions of 1 each
reach `tokensLeft = 0`, and a further `consume_tokens 1` returns `false`
leaving `tokensLeft = 0`. -/
theorem consume_tokens_spec :
    (∀ (store : Option BudgetRecord) (month : String) (limit n : Int),
      ((consume_tokens n store month limit).1 = true ↔
        n ≤ (rolled store month limit).tokensLeft) ∧
      ((consume_tokens n store month limit).1 = true →
        (consume_tokens n store month limit).2 =
          some ⟨month, (rolled store month limit).tokensLeft - n⟩) ∧
      ((consume_tokens n store month limit).1 = false →
        (consume_tokens n store month limit).2 = store)) ∧
    (∀ (limit : Nat) (month : String),
      consume_iter month limit limit (some ⟨month, (limit : Int)⟩) = some ⟨month, 0⟩ ∧
      consume_tokens 1 (some ⟨month, (0 : Int)⟩) month limit = (false, some ⟨month, 0⟩)) := by
  constructor
  · intro store month limit n
    refine ⟨?_, ?_, ?_⟩
    · by_cases h : (rolled store month limit).tokensLeft < n
      · simp [consume_tokens, h]
      · simp [consume_tokens, h]
        omega
    · intro hs
      by_cases h : (rolled store month limit).tokensLeft < n
      · simp [consume_tokens, h] at hs
      · simp [consume_tokens, h, rolled_month]
    · intro hf
      by_cases h : (rolled store month limit).tokensLeft < n
      · simp [consume_tokens, h]
      · simp [consume_tokens, h] at hf
  · intro limit month
    constructor
    · have := consume_iter_step month limit limit (limit : Int) le_rfl
      simpa using this
    · simp [consume_tokens, rolled]

/-- C5: `get_tokens` on a store whose month differs from the current month
(including an absent/unreadable store) persists a full reset and returns
`(monthlyLimit, monthlyLimit)` regardless of prior depletion; on a matching
month it returns the stored `tokens_left` and leaves the store unchanged. -/
theorem get_tokens_spec (store : Option BudgetRecord) (month : String) (limit : Int) :
    ((store = none ∨ ∀ r : BudgetRecord, store = some r → r.month ≠ month) →
      get_tokens store month limit = ((limit, limit), some ⟨month, limit⟩)) ∧
    (∀ t : Int, store = some ⟨month, t⟩ →
      get_tokens store month limit = ((t, limit), store)) := by
  constructor
  · intro h
    cases store with
    | none => rfl
    | some r =>
      have hne : r.month ≠ month := by
        cases h with
        | inl h0 => exact absurd h0 (by simp)
        | inr h1 => exact h1 r rfl
      simp [get_tokens, hne]
  · intro t ht
    subst ht
    simp [get_tokens]

theorem get_tokens_spec_witness :
    get_tokens (some ⟨"2026-09", 0⟩) "2026-10" 500 = ((500, 500), some ⟨"2026-10", 500⟩) ∧
    get_tokens (some ⟨"2026-10", 7⟩) "2026-10" 500 = ((7, 500), some ⟨"2026-10", 7⟩) := by
  refine ⟨(get_tokens_spec (some ⟨"2026-09", 0⟩) "2026-10" 500).1 ?_,
          (get_tokens_spec (some ⟨"2026-10", 7⟩) "2026-10" 500).2 7 rfl⟩
  right
  intro r hr
  cases hr
  decide

theorem budget_step_inv (limit : Int) (hlim : 0 ≤ limit) (store : Option BudgetRecord)
    (hs : BudgetInv limit store) (op : BudgetOp) :
    BudgetInv limit (budget_step limit store op) := by
  cases op with
  | getOp month =>
    cases store with
    | none => exact ⟨hlim, le_refl limit⟩
    | some r =>
      by_cases h : r.month = month
      · simpa [budget_step, get_tokens, h, BudgetInv] using hs
      · simp [budget_step, get_tokens, h, BudgetInv]
        exact hlim
  | consumeOp n month =>
    have hroll : 0 ≤ (rolled store month limit).tokensLeft ∧
        (rolled store month limit).tokensLeft ≤ limit := by
      cases store with
      | none => exact ⟨hlim, le_refl limit⟩
      | some r =>
        by_cases h : r.month = month
        · simpa [rolled, h, BudgetInv] using hs
        · simp [rolled, h]
          exact hlim
    by_cases h : (rolled store month limit).tokensLeft < (n : Int)
    · simpa [budget_step, consume_tokens, h] using hs
    · have hn : (0 : Int) ≤ (n : Int) := Int.ofNat_nonneg n
      simp [budget_step, consume_tokens, h, BudgetInv]
      omega
  | refillOp month => exact ⟨hlim, le_refl limit⟩

/-- C6: every store persisted by a sequence of `get_tokens`,
`consume_tokens` with nonnegative `n`, and `refill_monthly` operations,
starting from an empty (or any invariant-satisfying) store, keeps
`tokens_left` within `[0, monthlyLimit]`. -/
theorem budget_run_inv (limit : Int) (hlim : 0 ≤ limit) (ops : List BudgetOp)
    (store : Option BudgetRecord) (hs : BudgetInv limit store) :
    BudgetInv limit (budget_run limit store ops) := by
  induction ops generalizing store with
  | nil => exact hs
  | cons op rest ih =>
    exact ih (budget_step limit store op) (budget_step_inv limit hlim store hs op)

theorem budget_run_inv_witness :
    BudgetInv 500 (budget_run 500 none
      [BudgetOp.getOp "2026-10", BudgetOp.consumeOp 3 "2026-10", BudgetOp.refillOp "2026-11"]) :=
  budget_run_inv 500 (by decide) _ none trivial

theorem consume_tokens_spec_witness :
    (consume_tokens 2 (some ⟨"2026-10", 5⟩) "2026-10" 500).2 = some ⟨"2026-10", 3⟩ ∧
    (consume_tokens 9 (some ⟨"2026-10", 5⟩) "2026-10" 500).2 = some ⟨"2026-10", 5⟩ := by
  constructor
  · have h := (consume_tokens_spec.1 (some ⟨"2026-10", 5⟩) "2026-10" 500 2).2.1 (by decide)
    simpa [rolled] using h
  · have h := (consume_tokens_spec.1 (some ⟨"2026-10", 5⟩) "2026-10" 500 9).2.2 (by decide)
    simpa using h

/-- C7: for a clock-time request, a parseable in-range "HH:MM" is interpreted
as today at that time, rolling to tomorrow when that instant is not strictly
in the future, and the returned delay is always strictly positive; a string
whose parse fails, or whose hour/minute is out of range, yields an
`InvalidInput` error. -/
theorem compute_delay_seconds_clock_spec (s : String) (nowSod : Nat) (hnow : nowSod < 86400) :
    (∀ h m : Int, parseHHMM s = some (h, m) →
      (0 ≤ h ∧ h ≤ 23 ∧ 0 ≤ m ∧ m ≤ 59) → s ≠ "" →
      compute_delay_seconds none (some s) nowSod =
        .ok (if h * 3600 + m * 60 ≤ (nowSod : Int)
             then h * 3600 + m * 60 + 86400 - nowSod
             else h * 3600 + m * 60 - nowSod) ∧
      (∀ d : Int, compute_delay_seconds none (some s) nowSod = .ok d → 0 < d)) ∧
    (parseHHMM s = none → s ≠ "" →
      compute_delay_seconds none (some s) nowSod =
        .error (.invalidInput "time_hhmm must be in HH:MM 24h format")) ∧
    (∀ h m : Int, parseHHMM s = some (h, m) →
      ¬ (0 ≤ h ∧ h ≤ 23 ∧ 0 ≤ m ∧ m ≤ 59) → s ≠ "" →
      compute_delay_seconds none (some s) nowSod =
        .error (.invalidInput "time_hhmm must be a valid 24h time")) := by
  refine ⟨?_, ?_, ?_⟩
  · intro h m hp hr hs
    have ht : hhmmTruthy (some s) := ⟨Option.some_ne_none s, by simp [hs]⟩
    have heq : compute_delay_seconds none (some s) nowSod =
        .ok (if h * 3600 + m * 60 ≤ (nowSod : Int)
             then h * 3600 + m * 60 + 86400 - nowSod
             else h * 3600 + m * 60 - nowSod) := by
      simp [compute_delay_seconds, ht, hp, hr]
      split <;> rfl
    refine ⟨heq, ?_⟩
    intro d hd
    rw [heq] at hd
    obtain ⟨h0, h23, m0, m59⟩ := hr
    by_cases hc : h * 3600 + m * 60 ≤ (nowSod : Int)
    · rw [if_pos hc] at hd
      have hd2 : d = h * 3600 + m * 60 + 86400 - nowSod := by
        simpa using hd.symm
      omega
    · rw [if_neg hc] at hd
      have hd2 : d = h * 3600 + m * 60 - nowSod := by
        simpa using hd.symm
      omega
  · intro hp hs
    have ht : hhmmTruthy (some s) := ⟨Option.some_ne_none s, by simp [hs]⟩
    simp [compute_delay_seconds, ht, hp]
  · intro h m hp hr hs
    have ht : hhmmTruthy (some s) := ⟨Option.some_ne_none s, by simp [hs]⟩
    simp [compute_delay_seconds, ht, hp, hr]

theorem compute_delay_seconds_clock_spec_witness :
    compute_delay_seconds none (some "09:30") 50000 = .ok 70600 ∧
    compute_delay_seconds none (some "oops") 50000 =
      .error (.invalidInput "time_hhmm must be in HH:MM 24h format") ∧
    compute_delay_seconds none (some "25:00") 50000 =
      .error (.invalidInput "time_hhmm must be a valid 24h time") := by
  refine ⟨?_, ?_, ?_⟩
  · have h := ((compute_delay_seconds_clock_spec "09:30" 50000 (by decide)).1 9 30
      (by decide) (by decide) (by decide)).1
    simpa using h
  · exact (compute_delay_seconds_clock_spec "oops" 50000 (by decide)).2.1 (by decide) (by decide)
  · exact (compute_delay_seconds_clock_spec "25:00" 50000 (by decide)).2.2 25 0
      (by decide) (by decide) (by decide)

/-- C8: the month/day scheduler rejects with `InvalidInput` a day outside
the actual length of the requested month, a malformed or out-of-range time
string, and an instant that is not strictly in the future; when every check
passes it returns the strictly positive delay until that instant. -/
theorem compute_delay_to_month_day_time_spec (year month day : Int) (s : String) (now : Int) :
    (¬ (1 ≤ month ∧ month ≤ 12) →
      compute_delay_to_month_day_time year month day s now =
        .error (.invalidInput "bad month number; must be 1-12")) ∧
    ((1 ≤ month ∧ month ≤ 12) → (day < 1 ∨ day > monthDays year month) →
      compute_delay_to_month_day_time year month day s now =
        .error (.invalidInput "Invalid day for this month")) ∧
    ((1 ≤ month ∧ month ≤ 12) → 1 ≤ day → day ≤ monthDays year month →
      parseHHMM s = none →
      compute_delay_to_month_day_time year month day s now =
        .error (.invalidInput "time_hhmm must be in HH:MM 24h format")) ∧
    (∀ h mi : Int, (1 ≤ month ∧ month ≤ 12) → 1 ≤ day → day ≤ monthDays year month →
      parseHHMM s = some (h, mi) → ¬ (0 ≤ h ∧ h ≤ 23 ∧ 0 ≤ mi ∧ mi ≤ 59) →
      compute_delay_to_month_day_time year month day s now =
        .error (.invalidInput "time_hhmm must be a valid 24h time")) ∧
    (∀ h mi : Int, (1 ≤ month ∧ month ≤ 12) → 1 ≤ day → day ≤ monthDays year month →
      parseHHMM s = some (h, mi) → (0 ≤ h ∧ h ≤ 23 ∧ 0 ≤ mi ∧ mi ≤ 59) →
      (1 ≤ year ∧ year ≤ 9999) →
      ((toEpochSecs year.toNat month.toNat day.toNat h.toNat mi.toNat : Int) ≤ now →
        compute_delay_to_month_day_time year month day s now =
          .error (.invalidInput "Selected date/time must be in the future within this month")) ∧
      (now < (toEpochSecs year.toNat month.toNat day.toNat h.toNat mi.toNat : Int) →
        compute_delay_to_month_day_time year month day s now =
          .ok ((toEpochSecs year.toNat month.toNat day.toNat h.toNat mi.toNat : Int) - now) ∧
        0 < (toEpochSecs year.toNat month.toNat day.toNat h.toNat mi.toNat : Int) - now)) := by
  refine ⟨?_, ?_, ?_, ?_, ?_⟩
  · intro hm
    simp [compute_delay_to_month_day_time, monthrange_days, hm]
  · intro hm hday
    simp [compute_delay_to_month_day_time, monthrange_days, hm, hday]
  · intro hm hd1 hd2 hp
    have hday : ¬ (day < 1 ∨ day > monthDays year month) := by omega
    simp [compute_delay_to_month_day_time, monthrange_days, hm, hday, hp]
  · intro h mi hm hd1 hd2 hp hr
    have hday : ¬ (day < 1 ∨ day > monthDays year month) := by omega
    simp [compute_delay_to_month_day_time, monthrange_days, hm, hday, hp, hr]
  · intro h mi hm hd1 hd2 hp hr hy
    have hday : ¬ (day < 1 ∨ day > monthDays year month) := by omega
    have hyr : ¬ (year < 1 ∨ year > 9999) := by omega
    constructor
    · intro hpast
      simp [compute_delay_to_month_day_time, monthrange_days, hm, hday, hp, hr, hyr, hpast]
    · intro hfut
      have hnot : ¬ ((toEpochSecs year.toNat month.toNat day.toNat h.toNat mi.toNat : Int) ≤ now) := by
        omega
      constructor
      · simp [compute_delay_to_month_day_time, monthrange_days, hm, hday, hp, hr, hyr, hnot]
      · omega

theorem compute_delay_to_month_day_time_spec_witness :
    compute_delay_to_month_day_time 2026 9 31 "09:30" 0 =
      .error (.invalidInput "Invalid day for this month") ∧
    compute_delay_to_month_day_time 2026 10 12 "09:30" ((toEpochSecs 2026 10 12 9 30 : Int) + 5) =
      .error (.invalidInput "Selected date/time must be in the future within this month") ∧
    compute_delay_to_month_day_time 2026 10 12 "09:30" ((toEpochSecs 2026 10 12 9 30 : Int) - 5) =
      .ok 5 := by
  refine ⟨?_, ?_, ?_⟩
  · exact (compute_delay_to_month_day_time_spec 2026 9 31 "09:30" 0).2.1
      (by decide) (by decide)
  · exact ((compute_delay_to_month_day_time_spec 2026 10 12 "09:30"
      ((toEpochSecs 2026 10 12 9 30 : Int) + 5)).2.2.2.2 9 30 (by decide) (by decide)
      (by decide) (by decide) (by decide) (by decide)).1 (by decide)
  · have h := ((compute_delay_to_month_day_time_spec 2026 10 12 "09:30"
      ((toEpochSecs 2026 10 12 9 30 : Int) - 5)).2.2.2.2 9 30 (by decide) (by decide)
      (by decide) (by decide) (by decide) (by decide)).2 (by decide)
    have heq := h.1
    simpa using heq

theorem cursorAfter_cons (m : Mention) (rest : List Mention) (last : Option Int) :
    cursorAfter (m :: rest) last = cursorAfter rest (some m.id) := by
  cases rest with
  | nil => simp [cursorAfter]
  | cons b tl =>
    simp only [cursorAfter, List.getLast?_cons_cons]
    cases h : (b :: tl).getLast? with
    | none => simp at h
    | some x => rfl

theorem cursorAfter_reverse (l : List Mention) (last : Option Int) :
    cursorAfter l.reverse last = fetchHeadId l last := by
  cases l with
  | nil => rfl
  | cons m rest => simp [cursorAfter, fetchHeadId, List.getLast?_reverse]

theorem fixedReplyLoop_ok (outcome : Mention → Option TransportError) (l : List Mention)
    (last : Option Int)
    (hok : ∀ m ∈ l, outcome m = none) (hname : ∀ m ∈ l, m.screenName ≠ none) :
    fixedReplyLoop outcome l last = (pairEvents l, cursorAfter l last) := by
  induction l generalizing last with
  | nil => rfl
  | cons m rest ih =>
    have hm : outcome m = none := hok m (by simp)
    have hn : m.screenName ≠ none := hname m (by simp)
    cases hsn : m.screenName with
    | none => exact absurd hsn hn
    | some sn =>
      have ih2 := ih (some m.id) (fun x hx => hok x (by simp [hx]))
        (fun x hx => hname x (by simp [hx]))
      simp only [fixedReplyLoop, hsn, hm, ih2, pairEvents, cursorAfter_cons]

theorem fixedReplyLoop_fail (outcome : Mention → Option TransportError) (l1 : List Mention)
    (mf : Mention) (l2 : List Mention) (e : TransportError) (last : Option Int)
    (hok : ∀ m ∈ l1, outcome m = none) (hname : ∀ m ∈ l1, m.screenName ≠ none)
    (hmf : mf.screenName ≠ none) (hf : outcome mf = some e) :
    fixedReplyLoop outcome (l1 ++ mf :: l2) last =
      (pairEvents l1 ++ [Event.loggedErrorKind e], cursorAfter l1 last) := by
  induction l1 generalizing last with
  | nil =>
    cases hsn : mf.screenName with
    | none => exact absurd hsn hmf
    | some sn => simp [fixedReplyLoop, hsn, hf, pairEvents, cursorAfter]
  | cons m rest ih =>
    have hm : outcome m = none := hok m (by simp)
    have hn : m.screenName ≠ none := hname m (by simp)
    cases hsn : m.screenName with
    | none => exact absurd hsn hn
    | some sn =>
      have ih2 := ih (some m.id) (fun x hx => hok x (by simp [hx]))
        (fun x hx => hname x (by simp [hx]))
      simp only [List.cons_append, fixedReplyLoop, hsn, hm, ih2, pairEvents,
        cursorAfter_cons, List.append_eq]

theorem get_tokens_post (store : Option BudgetRecord) (month : String) (limit : Int) :
    (get_tokens store month limit).2 = some ⟨month, (get_tokens store month limit).1.1⟩ := by
  cases store with
  | none => rfl
  | some r =>
    by_cases h : r.month = month
    · cases r
      simp_all [get_tokens]
    · simp [get_tokens, h]

theorem aiReplyLoop_master (outcome : Mention → Option TransportError) (month : String)
    (limit : Int) (l : List Mention) (last : Option Int) (t : Int)
    (hname : ∀ m ∈ l, m.screenName ≠ none) (ht : (l.length : Int) ≤ t) :
    aiReplyLoop outcome month limit l last (some ⟨month, t⟩) =
      (aiTrace outcome l, lastSuccessId outcome last l, some ⟨month, t - l.length⟩) := by
  induction l generalizing last t with
  | nil => simp [aiReplyLoop, aiTrace, lastSuccessId]
  | cons m rest ih =>
    have hn : m.screenName ≠ none := hname m (by simp)
    cases hsn : m.screenName with
    | none => exact absurd hsn hn
    | some sn =>
      have hlen : (1 : Int) ≤ t := by
        have hl : ((rest.length + 1 : Nat) : Int) ≤ t := by simpa using ht
        omega
      have hg : get_tokens (some ⟨month, t⟩) month limit = ((t, limit), some ⟨month, t⟩) := by
        simp [get_tokens]
      have ht1 : ¬ (t < 1) := by omega
      have hc : consume_tokens 1 (some ⟨month, t⟩) month limit = (true, some ⟨month, t - 1⟩) := by
        simp [consume_tokens, rolled, ht1]
      have hnt : ¬ (t ≤ 0) := by omega
      have htr : ((rest.length : Nat) : Int) ≤ t - 1 := by
        have hl : ((rest.length + 1 : Nat) : Int) ≤ t := by simpa using ht
        omega
      have harith : t - 1 - (rest.length : Int) = t - ((rest.length + 1 : Nat) : Int) := by
        push_cast
        ring
      cases ho : outcome m with
      | some e =>
        have ih2 := ih last (t - 1) (fun x hx => hname x (by simp [hx])) htr
        simp only [aiReplyLoop, hsn, hg, hc, if_neg hnt, ho, ih2, aiTrace, lastSuccessId]
        simp [harith, ho]
      | none =>
        have ih2 := ih (some m.id) (t - 1) (fun x hx => hname x (by simp [hx])) htr
        simp only [aiReplyLoop, hsn, hg, hc, if_neg hnt, ho, ih2, aiTrace, lastSuccessId]
        simp [harith, ho]

theorem aiReplyLoop_no_consume_fail (outcome : Mention → Option TransportError)
    (month : String) (limit : Int) (l : List Mention) (last : Option Int)
    (store : Option BudgetRecord) :
    Event.stoppedConsumeFail ∉ (aiReplyLoop outcome month limit l last store).1 := by
  induction l generalizing last store with
  | nil => simp [aiReplyLoop]
  | cons m rest ih =>
    cases hsn : m.screenName with
    | none =>
      simpa [aiReplyLoop, hsn] using ih last store
    | some sn =>
      by_cases hb : (get_tokens store month limit).1.1 ≤ 0
      · simp [aiReplyLoop, hsn, hb]
      · have hgp := get_tokens_post store month limit
        have hlt : ¬ ((get_tokens store month limit).1.1 < 1) := by omega
        have hc : (consume_tokens 1 (get_tokens store month limit).2 month limit).1 = true := by
          rw [hgp]
          simp [consume_tokens, rolled, hlt]
        cases ho : outcome m with
        | some e =>
          simp only [aiReplyLoop, hsn, if_neg hb, ho]
          simp only [hc]
          simpa using ih last (consume_tokens 1 (get_tokens store month limit).2 month limit).2
        | none =>
          simp only [aiReplyLoop, hsn, if_neg hb, ho]
          simp only [hc]
          simpa using ih (some m.id)
            (consume_tokens 1 (get_tokens store month limit).2 month limit).2

theorem aiTrace_all_ok (outcome : Mention → Option TransportError) (l : List Mention)
    (hok : ∀ m ∈ l, outcome m = none) : aiTrace outcome l = pairEvents l := by
  induction l with
  | nil => rfl
  | cons m rest ih =>
    have hm : outcome m = none := hok m (by simp)
    simp only [aiTrace, hm, pairEvents, ih (fun x hx => hok x (by simp [hx]))]

theorem lastSuccessId_all_ok (outcome : Mention → Option TransportError) (l : List Mention)
    (last : Option Int) (hok : ∀ m ∈ l, outcome m = none) :
    lastSuccessId outcome last l = cursorAfter l last := by
  induction l generalizing last with
  | nil => rfl
  | cons m rest ih =>
    have hm : outcome m = none := hok m (by simp)
    simp [lastSuccessId, hm, cursorAfter_cons,
      ih (some m.id) (fun x hx => hok x (by simp [hx]))]

theorem repliedIds_pairEvents (l : List Mention) :
    repliedIds (pairEvents l) = l.map Mention.id := by
  induction l with
  | nil => rfl
  | cons m rest ih => simp [pairEvents, repliedIds, ih]

/-- C1: in one cycle of either auto-reply mode, when every fetched mention
has an author and every reply posts successfully (and, in AI mode, the
budget covers the batch), the engine replies in reversed (oldest-first)
order, persisting the cursor immediately after each individual reply and
before handling the next mention; the cycle ends with the cursor at the
newest fetched mention, and a newest-first (strictly descending) fetch is
replied to in strictly ascending id order. -/
theorem auto_reply_cycle_order_spec (outcome : Mention → Option TransportError)
    (month : String) (limit : Int) (mentions : List Mention) (last : Option Int) (t : Int)
    (hname : ∀ m ∈ mentions, m.screenName ≠ none)
    (hok : ∀ m ∈ mentions, outcome m = none)
    (ht : (mentions.length : Int) ≤ t) :
    auto_reply_cycle_fixed outcome mentions last =
      (pairEvents mentions.reverse, fetchHeadId mentions last) ∧
    auto_reply_cycle_ai outcome month limit mentions last (some ⟨month, t⟩) =
      (pairEvents mentions.reverse, fetchHeadId mentions last,
        some ⟨month, t - mentions.length⟩) ∧
    (List.Sorted (fun a b => b < a) (mentions.map Mention.id) →
      List.Sorted (fun a b => a < b)
        (repliedIds (auto_reply_cycle_fixed outcome mentions last).1)) := by
  have hnameR : ∀ m ∈ mentions.reverse, m.screenName ≠ none :=
    fun m hm => hname m (List.mem_reverse.mp hm)
  have hokR : ∀ m ∈ mentions.reverse, outcome m = none :=
    fun m hm => hok m (List.mem_reverse.mp hm)
  have hfix : auto_reply_cycle_fixed outcome mentions last =
      (pairEvents mentions.reverse, cursorAfter mentions.reverse last) :=
    fixedReplyLoop_ok outcome mentions.reverse last hokR hnameR
  refine ⟨?_, ?_, ?_⟩
  · rw [hfix, cursorAfter_reverse]
  · have hmain := aiReplyLoop_master outcome month limit mentions.reverse last t hnameR
      (by simpa using ht)
    rw [show auto_reply_cycle_ai outcome month limit mentions last (some ⟨month, t⟩) =
          aiReplyLoop outcome month limit mentions.reverse last (some ⟨month, t⟩) from rfl,
      hmain, aiTrace_all_ok outcome mentions.reverse hokR,
      lastSuccessId_all_ok outcome mentions.reverse last hokR, cursorAfter_reverse]
    simp
  · intro hsorted
    have h1 : repliedIds (auto_reply_cycle_fixed outcome mentions last).1 =
        (mentions.map Mention.id).reverse := by
      rw [hfix]
      simp [repliedIds_pairEvents, List.map_reverse]
    rw [h1]
    exact List.pairwise_reverse.mpr hsorted

theorem auto_reply_cycle_order_spec_witness :
    auto_reply_cycle_fixed (fun _ => none)
      [⟨7, some "alice", "a"⟩, ⟨5, some "bob", "b"⟩, ⟨3, some "carol", "c"⟩] none =
      ([Event.replied 3, Event.persisted 3, Event.replied 5, Event.persisted 5,
        Event.replied 7, Event.persisted 7], some 7) ∧
    auto_reply_cycle_ai (fun _ => none) "2026-10" 500
      [⟨7, some "alice", "a"⟩, ⟨5, some "bob", "b"⟩, ⟨3, some "carol", "c"⟩] none
      (some ⟨"2026-10", 500⟩) =
      ([Event.replied 3, Event.persisted 3, Event.replied 5, Event.persisted 5,
        Event.replied 7, Event.persisted 7], some 7, some ⟨"2026-10", 497⟩) := by
  have h := auto_reply_cycle_order_spec (fun _ => none) "2026-10" 500
    [⟨7, some "alice", "a"⟩, ⟨5, some "bob", "b"⟩, ⟨3, some "carol", "c"⟩] none 500
    (by decide) (by decide) (by decide)
  exact ⟨h.1.trans (by decide), h.2.1.trans (by decide)⟩

/-- C2 counterexample: in fixed-template mode the `try` wraps the whole
`for` loop, so when the reply to the oldest mention (id 3) fails, the cycle
logs the error kind and aborts — mentions 5 and 7 are not attempted in the
same cycle, contradicting the claim that the engine continues with the next
mention of that cycle. -/
theorem auto_reply_fixed_abort_cex :
    auto_reply_cycle_fixed
      (fun m => if m.id = 3 then some TransportError.rateLimited else none)
      [⟨7, some "alice", "a"⟩, ⟨5, some "bob", "b"⟩, ⟨3, some "carol", "c"⟩] none =
      ([Event.loggedErrorKind TransportError.rateLimited], none) ∧
    Event.replied 5 ∉ (auto_reply_cycle_fixed
      (fun m => if m.id = 3 then some TransportError.rateLimited else none)
      [⟨7, some "alice", "a"⟩, ⟨5, some "bob", "b"⟩, ⟨3, some "carol", "c"⟩] none).1 ∧
    Event.replied 7 ∉ (auto_reply_cycle_fixed
      (fun m => if m.id = 3 then some TransportError.rateLimited else none)
      [⟨7, some "alice", "a"⟩, ⟨5, some "bob", "b"⟩, ⟨3, some "carol", "c"⟩] none).1 := by
  decide

/-- C2 (amended): a failing reply never advances the cursor past the failed
mention and the failed mention stays beyond the persisted cursor for the
next cycle, but the two modes differ in scope: in fixed-template mode the
failure is caught by the handlers outside the mention loop, so the specific
error kind is logged and the remainder of the cycle is abandoned (cursor
stays at the last successful reply); in AI mode the failure is caught per
mention, logged generically, and the loop continues with the next mention
while the token store has already been charged for the attempt. -/
theorem auto_reply_failure_spec (outcome : Mention → Option TransportError)
    (month : String) (limit : Int) (e : TransportError) :
    (∀ (mentions l1 : List Mention) (mf : Mention) (l2 : List Mention) (last : Option Int),
      mentions.reverse = l1 ++ mf :: l2 →
      (∀ m ∈ l1, outcome m = none) → (∀ m ∈ l1, m.screenName ≠ none) →
      mf.screenName ≠ none → outcome mf = some e →
      auto_reply_cycle_fixed outcome mentions last =
        (pairEvents l1 ++ [Event.loggedErrorKind e], cursorAfter l1 last)) ∧
    (∀ (m : Mention) (rest : List Mention) (last : Option Int) (t : Int),
      m.screenName ≠ none → outcome m = some e → 1 ≤ t →
      aiReplyLoop outcome month limit (m :: rest) last (some ⟨month, t⟩) =
        (Event.aiReplyFailed m.id ::
            (aiReplyLoop outcome month limit rest last (some ⟨month, t - 1⟩)).1,
          (aiReplyLoop outcome month limit rest last (some ⟨month, t - 1⟩)).2)) := by
  constructor
  · intro mentions l1 mf l2 last hrev hok hname hmf hf
    have : auto_reply_cycle_fixed outcome mentions last =
        fixedReplyLoop outcome mentions.reverse last := rfl
    rw [this, hrev]
    exact fixedReplyLoop_fail outcome l1 mf l2 e last hok hname hmf hf
  · intro m rest last t hn hf hlen
    cases hsn : m.screenName with
    | none => exact absurd hsn hn
    | some sn =>
      have hg : get_tokens (some ⟨month, t⟩) month limit = ((t, limit), some ⟨month, t⟩) := by
        simp [get_tokens]
      have ht1 : ¬ (t < 1) := by omega
      have hc : consume_tokens 1 (some ⟨month, t⟩) month limit = (true, some ⟨month, t - 1⟩) := by
        simp [consume_tokens, rolled, ht1]
      have hnt : ¬ (t ≤ 0) := by omega
      simp only [aiReplyLoop, hsn, hg, hc, if_neg hnt, hf]
      simp

theorem auto_reply_failure_spec_witness :
    auto_reply_cycle_fixed
      (fun m => if m.id = 3 then some TransportError.unauthorized else none)
      [⟨7, some "alice", "a"⟩, ⟨5, some "bob", "b"⟩, ⟨3, some "carol", "c"⟩] (some 1) =
      ([Event.loggedErrorKind TransportError.unauthorized], some 1) ∧
    aiReplyLoop (fun m => if m.id = 3 then some TransportError.unauthorized else none)
      "2026-10" 500 [⟨3, some "carol", "c"⟩] (some 1) (some ⟨"2026-10", 5⟩) =
      ([Event.aiReplyFailed 3], some 1, some ⟨"2026-10", 4⟩) := by
  have h := auto_reply_failure_spec
    (fun m => if m.id = 3 then some TransportError.unauthorized else none)
    "2026-10" 500 TransportError.unauthorized
  constructor
  · have h1 := h.1 [⟨7, some "alice", "a"⟩, ⟨5, some "bob", "b"⟩, ⟨3, some "carol", "c"⟩]
      [] ⟨3, some "carol", "c"⟩ [⟨5, some "bob", "b"⟩, ⟨7, some "alice", "a"⟩] (some 1)
      (by decide) (by decide) (by decide) (by decide) (by decide)
    exact h1.trans (by decide)
  · have h2 := h.2 ⟨3, some "carol", "c"⟩ [] (some 1) 5 (by decide) (by decide) (by decide)
    exact h2.trans (by decide)

/-- C3 counterexample: in AI mode the token is consumed by
`consume_tokens(1)` before the post is attempted, so a mention whose reply
fails to post still costs a token — the store drops from 5 to 4 although
the trace contains no successful reply, contradicting the claim that no
token is consumed for a reply that is not successfully posted. -/
theorem auto_reply_ai_token_cex :
    auto_reply_cycle_ai (fun _ => some TransportError.unexpected) "2026-10" 500
      [⟨3, some "carol", "c"⟩] none (some ⟨"2026-10", 5⟩) =
      ([Event.aiReplyFailed 3], none, some ⟨"2026-10", 4⟩) ∧
    repliedIds [Event.aiReplyFailed 3] = [] := by
  decide

/-- C3 (amended): in AI mode, when the budget check at a mention reads
`tokensLeft <= 0` the whole engine stops at once (no further mention is
processed and the store is untouched); otherwise exactly one token is
consumed per processed mention, before the post and regardless of whether
the post then succeeds; and in this single-writer model the consume step
never fails after a passed budget check (the code's consume-failure guard,
which would also stop the engine, is unreachable). -/
theorem auto_reply_ai_budget_spec (outcome : Mention → Option TransportError)
    (month : String) (limit : Int) :
    (∀ (m : Mention) (rest mentions : List Mention) (last : Option Int) (t : Int),
      mentions.reverse = m :: rest → m.screenName ≠ none → t ≤ 0 →
      auto_reply_cycle_ai outcome month limit mentions last (some ⟨month, t⟩) =
        ([Event.stoppedBudget], last, some ⟨month, t⟩)) ∧
    (∀ (mentions : List Mention) (last : Option Int) (t : Int),
      (∀ m ∈ mentions, m.screenName ≠ none) → (mentions.length : Int) ≤ t →
      (auto_reply_cycle_ai outcome month limit mentions last (some ⟨month, t⟩)).2.2 =
        some ⟨month, t - mentions.length⟩) ∧
    (∀ (mentions : List Mention) (last : Option Int) (store : Option BudgetRecord),
      Event.stoppedConsumeFail ∉
        (auto_reply_cycle_ai outcome month limit mentions last store).1) := by
  refine ⟨?_, ?_, ?_⟩
  · intro m rest mentions last t hrev hn ht0
    have hcyc : auto_reply_cycle_ai outcome month limit mentions last (some ⟨month, t⟩) =
        aiReplyLoop outcome month limit mentions.reverse last (some ⟨month, t⟩) := rfl
    rw [hcyc, hrev]
    cases hsn : m.screenName with
    | none => exact absurd hsn hn
    | some sn =>
      have hg : get_tokens (some ⟨month, t⟩) month limit = ((t, limit), some ⟨month, t⟩) := by
        simp [get_tokens]
      simp only [aiReplyLoop, hsn, hg, if_pos ht0]
  · intro mentions last t hname ht
    have hnameR : ∀ m ∈ mentions.reverse, m.screenName ≠ none :=
      fun m hm => hname m (List.mem_reverse.mp hm)
    have hmain := aiReplyLoop_master outcome month limit mentions.reverse last t hnameR
      (by simpa using ht)
    have hcyc : auto_reply_cycle_ai outcome month limit mentions last (some ⟨month, t⟩) =
        aiReplyLoop outcome month limit mentions.reverse last (some ⟨month, t⟩) := rfl
    rw [hcyc, hmain]
    simp
  · intro mentions last store
    exact aiReplyLoop_no_consume_fail outcome month limit mentions.reverse last store

theorem auto_reply_ai_budget_spec_witness :
    auto_reply_cycle_ai (fun _ => none) "2026-10" 500
      [⟨3, some "carol", "c"⟩] (some 1) (some ⟨"2026-10", 0⟩) =
      ([Event.stoppedBudget], some 1, some ⟨"2026-10", 0⟩) ∧
    (auto_reply_cycle_ai (fun _ => some TransportError.unexpected) "2026-10" 500
      [⟨3, some "carol", "c"⟩] none (some ⟨"2026-10", 5⟩)).2.2 = some ⟨"2026-10", 4⟩ ∧
    Event.stoppedConsumeFail ∉
      (auto_reply_cycle_ai (fun _ => none) "2026-10" 500
        [⟨3, some "carol", "c"⟩] none (some ⟨"2026-10", 5⟩)).1 := by
  have h1 := (auto_reply_ai_budget_spec (fun _ => none) "2026-10" 500).1
    ⟨3, some "carol", "c"⟩ [] [⟨3, some "carol", "c"⟩] (some 1) 0
    (by decide) (by decide) (by decide)
  have h2 := (auto_reply_ai_budget_spec (fun _ => some TransportError.unexpected)
    "2026-10" 500).2.1 [⟨3, some "carol", "c"⟩] none 5 (by decide) (by decide)
  have h3 := (auto_reply_ai_budget_spec (fun _ => none) "2026-10" 500).2.2
    [⟨3, some "carol", "c"⟩] none (some ⟨"2026-10", 5⟩)
  exact ⟨h1, h2.trans (by decide), h3⟩

theorem bulkLoop_attempts (outcome : Nat → String → Bool) (d total : Nat) (l : List String) :
    ∀ idx, attempts (bulkLoop outcome d total idx l) = idxFrom idx l := by
  induction l with
  | nil => intro idx; rfl
  | cons t rest ih =>
    intro idx
    by_cases hc : idx < total ∧ d ≠ 0 <;>
      cases ho : outcome idx t <;>
        simp [bulkLoop, hc, ho, attempts, idxFrom, ih (idx + 1)]

theorem sleepCount_bulkLoop_cons (outcome : Nat → String → Bool) (d total idx : Nat)
    (t : String) (rest : List String) :
    sleepCount (bulkLoop outcome d total idx (t :: rest)) =
      (if idx < total ∧ d ≠ 0 then 1 else 0) +
        sleepCount (bulkLoop outcome d total (idx + 1) rest) := by
  by_cases hc : idx < total ∧ d ≠ 0 <;>
    cases ho : outcome idx t <;>
      simp [bulkLoop, hc, ho, sleepCount]
  · omega
  · omega

theorem bulkLoop_sleepCount (outcome : Nat → String → Bool) (d total : Nat) :
    ∀ (l : List String) (idx : Nat), idx + l.length = total + 1 →
      sleepCount (bulkLoop outcome d total idx l) =
        if d = 0 ∨ l = [] then 0 else l.length - 1 := by
  intro l
  induction l with
  | nil => intro idx _; simp [bulkLoop, sleepCount]
  | cons t rest ih =>
    intro idx htotal
    rw [sleepCount_bulkLoop_cons]
    cases rest with
    | nil =>
      have hnot : ¬ (idx < total ∧ d ≠ 0) := by
        simp at htotal
        omega
      simp [hnot, bulkLoop, sleepCount]
    | cons t2 rest2 =>
      have hlt : idx < total := by
        simp at htotal
        omega
      have hrec := ih (idx + 1) (by simp at htotal ⊢; omega)
      rw [hrec]
      by_cases hd : d = 0
      · simp [hd]
      · simp [hlt, hd, List.length_cons]
        omega

theorem getLast?_cons_of_ne_nil {α : Type} (a : α) (l : List α) (h : l ≠ []) :
    (a :: l).getLast? = l.getLast? := by
  cases l with
  | nil => exact absurd rfl h
  | cons b tl => exact List.getLast?_cons_cons

theorem bulkLoop_ne_nil (outcome : Nat → String → Bool) (d total idx : Nat)
    (l : List String) (h : l ≠ []) : bulkLoop outcome d total idx l ≠ [] := by
  cases l with
  | nil => exact absurd rfl h
  | cons t rest =>
    by_cases hc : idx < total ∧ d ≠ 0 <;> simp [bulkLoop, hc]

theorem bulkLoop_getLast (outcome : Nat → String → Bool) (d total : Nat) :
    ∀ (l : List String) (idx : Nat), idx + l.length = total + 1 →
      ∀ dd : Nat, (bulkLoop outcome d total idx l).getLast? ≠ some (BulkEvent.slept dd) := by
  intro l
  induction l with
  | nil => intro idx _ dd; simp [bulkLoop]
  | cons t rest ih =>
    intro idx htotal dd
    cases rest with
    | nil =>
      have hnot : ¬ (idx < total ∧ d ≠ 0) := by
        simp at htotal
        omega
      cases ho : outcome idx t <;> simp [bulkLoop, hnot, ho]
    | cons t2 rest2 =>
      have hlt : idx < total := by
        simp at htotal
        omega
      have hrecne : bulkLoop outcome d total (idx + 1) (t2 :: rest2) ≠ [] :=
        bulkLoop_ne_nil outcome d total (idx + 1) (t2 :: rest2) (by simp)
      have hrec := ih (idx + 1) (by simp at htotal ⊢; omega) dd
      by_cases hc : idx < total ∧ d ≠ 0
      · rw [show bulkLoop outcome d total idx (t :: t2 :: rest2) =
            (if outcome idx t then BulkEvent.sent idx t else BulkEvent.failedPost idx t) ::
              (BulkEvent.slept d :: bulkLoop outcome d total (idx + 1) (t2 :: rest2)) from by
          simp [bulkLoop, hc]]
        rw [getLast?_cons_of_ne_nil _ _ (by simp)]
        rw [getLast?_cons_of_ne_nil _ _ hrecne]
        exact hrec
      · rw [show bulkLoop outcome d total idx (t :: t2 :: rest2) =
            (if outcome idx t then BulkEvent.sent idx t else BulkEvent.failedPost idx t) ::
              bulkLoop outcome d total (idx + 1) (t2 :: rest2) from by
          simp [bulkLoop, hc]]
        rw [getLast?_cons_of_ne_nil _ _ hrecne]
        exact hrec

theorem bulkLoop_slept_mem (outcome : Nat → String → Bool) (d total : Nat) :
    ∀ (l : List String) (idx : Nat) (dd : Nat),
      BulkEvent.slept dd ∈ bulkLoop outcome d total idx l → dd = d := by
  intro l
  induction l with
  | nil => intro idx dd h; simp [bulkLoop] at h
  | cons t rest ih =>
    intro idx dd h
    by_cases hc : idx < total ∧ d ≠ 0
    · cases ho : outcome idx t
      · simp [bulkLoop, hc, ho] at h
        rcases h with h | h
        · exact h
        · exact ih (idx + 1) dd h
      · simp [bulkLoop, hc, ho] at h
        rcases h with h | h
        · exact h
        · exact ih (idx + 1) dd h
    · cases ho : outcome idx t
      · simp [bulkLoop, hc, ho] at h
        exact ih (idx + 1) dd h
      · simp [bulkLoop, hc, ho] at h
        exact ih (idx + 1) dd h

/-- C9: bulk posting attempts every message in list order regardless of
per-item failures, never sleeps after the last attempt, sleeps exactly
between consecutive posts (and then always for the configured duration,
with no sleeps at all when the delay is zero), and an empty message list is
a no-op that only logs the "no tweets" notice. -/
theorem bulk_post_spec (outcome : Nat → String → Bool) (tweets : List String)
    (delay_minutes : Int) :
    (tweets = [] → bulk_post_from_file outcome tweets delay_minutes = [BulkEvent.noTweets]) ∧
    attempts (bulk_post_from_file outcome tweets delay_minutes) = idxFrom 1 tweets ∧
    (∀ d : Nat,
      (bulk_post_from_file outcome tweets delay_minutes).getLast? ≠
        some (BulkEvent.slept d)) ∧
    sleepCount (bulk_post_from_file outcome tweets delay_minutes) =
      (if bulk_delay_seconds delay_minutes = 0 ∨ tweets = [] then 0
       else tweets.length - 1) ∧
    (∀ d : Nat, BulkEvent.slept d ∈ bulk_post_from_file outcome tweets delay_minutes →
      d = bulk_delay_seconds delay_minutes) := by
  by_cases hnil : tweets = []
  · subst hnil
    refine ⟨fun _ => rfl, rfl, ?_, ?_, ?_⟩
    · intro d
      simp [bulk_post_from_file]
    · simp [bulk_post_from_file, sleepCount]
    · intro d hd
      simp [bulk_post_from_file] at hd
  · have hun : bulk_post_from_file outcome tweets delay_minutes =
        bulkLoop outcome (bulk_delay_seconds delay_minutes) tweets.length 1 tweets := by
      simp [bulk_post_from_file, hnil]
    have htotal : 1 + tweets.length = tweets.length + 1 := by omega
    refine ⟨fun h => absurd h hnil, ?_, ?_, ?_, ?_⟩
    · rw [hun]
      exact bulkLoop_attempts outcome (bulk_delay_seconds delay_minutes) tweets.length tweets 1
    · intro d
      rw [hun]
      exact bulkLoop_getLast outcome (bulk_delay_seconds delay_minutes) tweets.length
        tweets 1 htotal d
    · rw [hun, bulkLoop_sleepCount outcome (bulk_delay_seconds delay_minutes)
        tweets.length tweets 1 htotal]
    · intro d hd
      rw [hun] at hd
      exact bulkLoop_slept_mem outcome (bulk_delay_seconds delay_minutes) tweets.length
        tweets 1 d hd

theorem bulk_post_spec_witness :
    bulk_post_from_file (fun i _ => decide (i ≠ 2)) ["A", "B", "C"] 0 =
      [BulkEvent.sent 1 "A", BulkEvent.failedPost 2 "B", BulkEvent.sent 3 "C"] ∧
    attempts (bulk_post_from_file (fun i _ => decide (i ≠ 2)) ["A", "B", "C"] 0) =
      [(1, "A"), (2, "B"), (3, "C")] ∧
    sleepCount (bulk_post_from_file (fun i _ => decide (i ≠ 2)) ["A", "B", "C"] 0) = 0 ∧
    bulk_post_from_file (fun _ _ => true) [] 7 = [BulkEvent.noTweets] := by
  have h := bulk_post_spec (fun i _ => decide (i ≠ 2)) ["A", "B", "C"] 0
  have hempty := (bulk_post_spec (fun _ _ => true) ([] : List String) 7).1 rfl
  refine ⟨by decide, h.2.1.trans (by decide), (h.2.2.2.1).trans (by decide), hempty⟩

/-- C10: a message that is empty or whitespace-only makes `post_tweet` raise
`ValueError("Tweet message cannot be empty.")` without loading credentials
or touching the network; any message with a non-whitespace character
proceeds to credential loading, verification and posting. -/
theorem post_tweet_spec (message : String) :
    (pyStripStr message = "" →
      post_tweet message = .error "Tweet message cannot be empty.") ∧
    (pyStripStr message ≠ "" →
      post_tweet message =
        .ok [PostStep.loadCreds, PostStep.verifyCreds, PostStep.updateStatus message]) := by
  constructor
  · intro h
    simp [post_tweet, h]
  · intro h
    have hmsg : message ≠ "" := by
      intro hm
      exact h (by rw [hm]; rfl)
    simp [post_tweet, h, hmsg]

theorem post_tweet_spec_witness :
    post_tweet "  \t " = .error "Tweet message cannot be empty." ∧
    post_tweet " hi " =
      .ok [PostStep.loadCreds, PostStep.verifyCreds, PostStep.updateStatus " hi "] := by
  exact ⟨(post_tweet_spec "  \t ").1 (by decide), (post_tweet_spec " hi ").2 (by decide)⟩
